import Mathlib

/-!
Shallow embedding of the polyspectra-3d core in Lean 4, together with
theorems checking the natural-language specification against it.

Sources embedded:
* `src/components/Scene.tsx` — `hexToRgb`, the greedy clustering in `renderNodes`;
* `src/components/FilamentNode.tsx` — `displayColor` (RMS color aggregation);
* `src/services/geminiService.ts` — `normalize`, `parseCategory`,
  `findArrayInObject`, `fetchJsonRobust`, `fetchPolymakerData`.

Modelling conventions:
* JavaScript strings are Lean `String`s; `localeCompare`-based ordering is
  modelled as code-point lexicographic order; `String.prototype.trim` is
  modelled as stripping ASCII whitespace.
* JavaScript numbers are exact rationals `ℚ`; the floating-point comparison
  `Math.sqrt d2 < T` is embedded as the equivalent `0 < T ∧ d2 < T ^ 2`
  (the equivalence over `ℝ` is proved in `fits_iff_sqrt_lt`), and
  `Math.round (Math.sqrt q)` is embedded as the executable `roundSqrt`
  (agreement with `round (Real.sqrt q)` is proved in `roundSqrt_eq_round_sqrt`).
* Parsed JSON values are the inductive `Json`; JavaScript truthiness is
  `Json.truthy`; `String(v)` is `Json.jsStr`, including
  `Array.prototype.toString`'s comma-join of recursively converted elements.
* The source calls `toUpperCase`/`toLowerCase` on raw picked field values,
  which throws a TypeError on truthy non-strings and aborts the run;
  `recordThrows` characterizes exactly those records and
  `processRecordsThrow` the resulting loop outcome. Entity fields are stored
  as Lean strings, converting the raw value with `jsStr` at that boundary.
* The network is a boundary: each acquisition strategy's outcome is an
  `Option Json` input (`none` = timeout / bad status / undecodable body).
* Callback-based emission is modelled by returning the list of emitted
  products (and, where relevant, the list of in-loop progress-callback counts).
-/

namespace PolySpectra

/-! ### Character and hex-digit helpers -/

/-- Hex digit test matching the character class `[a-f\d]` / `[0-9A-F]` with
the case-insensitive flag: `0`-`9`, `a`-`f`, `A`-`F`. -/
def isHexDig (c : Char) : Bool :=
  (48 ≤ c.toNat && c.toNat ≤ 57) || (97 ≤ c.toNat && c.toNat ≤ 102) ||
    (65 ≤ c.toNat && c.toNat ≤ 70)

/-- Numeric value of a hex digit (0 for non-digits), as `parseInt(_, 16)`
uses per digit. -/
def hexVal (c : Char) : ℕ :=
  if 97 ≤ c.toNat ∧ c.toNat ≤ 102 then c.toNat - 87
  else if 65 ≤ c.toNat ∧ c.toNat ≤ 70 then c.toNat - 55
  else if 48 ≤ c.toNat ∧ c.toNat ≤ 57 then c.toNat - 48
  else 0

/-- `parseInt` of a two-hex-digit group. -/
def hexByte (hi lo : Char) : ℕ := 16 * hexVal hi + hexVal lo

lemma hexVal_le (c : Char) : hexVal c ≤ 15 := by
  unfold hexVal
  split
  · omega
  · split
    · omega
    · split
      · omega
      · omega

lemma hexByte_le (hi lo : Char) : hexByte hi lo ≤ 255 := by
  have h1 := hexVal_le hi
  have h2 := hexVal_le lo
  unfold hexByte
  omega

/-! ### `hexToRgb` (Scene.tsx lines 42–50)

```js
const hexToRgb = (hex) => {
  const fullHex = hex.replace(/^#?([a-f\d])([a-f\d])([a-f\d])$/i,
    (m, r, g, b) => r + r + g + g + b + b);
  const result = /^#?([a-f\d]{2})([a-f\d]{2})([a-f\d]{2})$/i.exec(fullHex);
  return result ? { r: parseInt(result[1], 16), g: ..., b: ... }
                : { r: 0, g: 0, b: 0 };
};
```
-/

structure RGB where
  r : ℕ
  g : ℕ
  b : ℕ
deriving DecidableEq, Repr

/-- The `replace` step: if the whole string matches `^#?([a-f\d])([a-f\d])([a-f\d])$`,
the matched portion (the entire string) is replaced by the six doubled digits
(the optional `#` is not part of a capture group, so it is dropped);
otherwise the string is unchanged. -/
def expandShorthand (l : List Char) : List Char :=
  match l with
  | ['#', a, b, c] =>
    if isHexDig a && isHexDig b && isHexDig c then [a, a, b, b, c, c] else l
  | [a, b, c] =>
    if isHexDig a && isHexDig b && isHexDig c then [a, a, b, b, c, c] else l
  | _ => l

/-- The `exec` step against `^#?([a-f\d]{2})([a-f\d]{2})([a-f\d]{2})$`:
an optional `#` followed by exactly six hex digits, grouped in pairs. -/
def matchHex6 (l : List Char) : Option (ℕ × ℕ × ℕ) :=
  match l with
  | ['#', a, b, c, d, e, f] =>
    if isHexDig a && isHexDig b && isHexDig c && isHexDig d && isHexDig e &&
        isHexDig f then
      some (hexByte a b, hexByte c d, hexByte e f)
    else none
  | [a, b, c, d, e, f] =>
    if isHexDig a && isHexDig b && isHexDig c && isHexDig d && isHexDig e &&
        isHexDig f then
      some (hexByte a b, hexByte c d, hexByte e f)
    else none
  | _ => none

def hexToRgb (hex : String) : RGB :=
  match matchHex6 (expandShorthand hex.toList) with
  | some (r, g, b) => ⟨r, g, b⟩
  | none => ⟨0, 0, 0⟩

/-! ### String helpers for the JavaScript operations used by the service -/

/-- `a.startsWith(b)` on character lists. -/
def startsWithL : List Char → List Char → Bool
  | [], _ => true
  | _ :: _, [] => false
  | a :: as, b :: bs => (a = b : Bool) && startsWithL as bs

/-- `hay.includes(needle)` on character lists: `needle` occurs contiguously. -/
def containsSub (needle : List Char) : List Char → Bool
  | [] => needle.isEmpty
  | c :: t => startsWithL needle (c :: t) || containsSub needle t

/-- `String.prototype.includes`. -/
def jsIncludes (hay needle : String) : Bool :=
  containsSub needle.toList hay.toList

/-- `String.prototype.toUpperCase` (ASCII, as all needles are ASCII). -/
def toUpperStr (s : String) : String := String.mk (s.toList.map Char.toUpper)

/-- `String.prototype.toLowerCase` (ASCII). -/
def toLowerStr (s : String) : String := String.mk (s.toList.map Char.toLower)

/-- `String.prototype.trim`, modelled as stripping ASCII whitespace from both
ends. -/
def jsTrim (s : String) : String :=
  let ws : Char → Bool := fun c => c = ' ' || c = '\t' || c = '\n' || c = '\r'
  String.mk (((s.toList.dropWhile ws).reverse.dropWhile ws).reverse)

/-! ### `normalize` and `parseCategory` (geminiService.ts lines 16–32) -/

/-- `const normalize = (str) => str.toLowerCase().replace(/[^a-z0-9]/g, '')`. -/
def normalize (str : String) : String :=
  String.mk ((toLowerStr str).toList.filter fun c =>
    (97 ≤ c.toNat && c.toNat ≤ 122) || (48 ≤ c.toNat && c.toNat ≤ 57))

/-- `parseCategory` from geminiService.ts: ordered, case-insensitive substring
tests over the raw category string `val` and the product name. -/
def parseCategory (val productName : String) : String :=
  let v := toUpperStr val
  let n := toUpperStr productName
  if jsIncludes v "PLA" || jsIncludes n "PLA" then "PLA"
  else if jsIncludes v "PETG" || jsIncludes n "PETG" then "PETG"
  else if jsIncludes v "ABS" || jsIncludes n "ABS" then "ABS"
  else if jsIncludes v "ASA" || jsIncludes n "ASA" then "ASA"
  else if jsIncludes v "TPU" || jsIncludes v "FLEX" || jsIncludes n "TPU" then "TPU"
  else if jsIncludes v "NYLON" || jsIncludes v "PA6" || jsIncludes v "PA12" ||
      jsIncludes n "NYLON" then "Nylon"
  else if jsIncludes v "PC" || jsIncludes n "PC" then "PC"
  else if jsIncludes v "PVB" || jsIncludes n "PVB" then "PVB"
  else if jsIncludes v "WOOD" || jsIncludes n "WOOD" then "Wood"
  else "Other"

/-! ### JSON values and `findArrayInObject` (geminiService.ts lines 35–56) -/

inductive Json where
  | null : Json
  | bool : Bool → Json
  | num : ℚ → Json
  | str : String → Json
  | arr : List Json → Json
  | obj : List (String × Json) → Json

namespace Json

/-- JavaScript truthiness of a JSON value (`undefined` is represented by an
absent property, i.e. `Option.none` at the access site). -/
def truthy : Json → Bool
  | .null => false
  | .bool b => b
  | .num q => q ≠ 0
  | .str s => s ≠ ""
  | .arr _ => true
  | .obj _ => true

/-- Property access `o.k`: `some v` when the key is present, `none` standing
for `undefined`. Non-objects have none of the properties used here. -/
def getProp : Json → String → Option Json
  | .obj fields, k => fields.lookup k
  | _, _ => none

mutual

/-- `String(v)` / `v.toString()` for a decoded JSON value: strings unchanged,
numbers and booleans in literal form, `null` as "null",
`Array.prototype.toString` joining the recursively converted elements with
commas (null elements become empty, per `Array.prototype.join`), and plain
objects as "[object Object]". -/
def jsStr : Json → String
  | .str s => s
  | .num q => toString q
  | .bool true => "true"
  | .bool false => "false"
  | .null => "null"
  | .arr l => jsStrArr l
  | .obj _ => "[object Object]"

/-- `Array.prototype.join(',')` over converted elements. -/
def jsStrArr : List Json → String
  | [] => ""
  | [.null] => ""
  | [j] => jsStr j
  | .null :: rest => "," ++ jsStrArr rest
  | j :: rest => jsStr j ++ "," ++ jsStrArr rest

end

end Json

/-- `Array.isArray(fields[k]) ? fields[k] : null` for one conventional key. -/
def arrProp (fields : List (String × Json)) (k : String) : Option (List Json) :=
  match fields.lookup k with
  | some (.arr l) => some l
  | _ => none

/-- Truthiness of `first.k` for the product-likeness heuristic. -/
def truthyProp (j : Json) (k : String) : Bool :=
  match j.getProp k with
  | some v => v.truthy
  | none => false

/-- `typeof v === 'object' && v !== null` (arrays included). -/
def isObjectType : Json → Bool
  | .arr _ => true
  | .obj _ => true
  | _ => false

/-- `findArrayInObject` from geminiService.ts: locate the raw record array in
an arbitrary decoded JSON value. -/
def findArrayInObject (j : Json) : Option (List Json) :=
  if j.truthy = false then none
  else
    match j with
    | .arr l => some l
    | .obj fields =>
      ((arrProp fields "data").orElse fun _ =>
        (arrProp fields "products").orElse fun _ =>
          (arrProp fields "items").orElse fun _ =>
            match fields.map Prod.snd with
            | [] => none
            | v :: vs =>
              if isObjectType v &&
                  (truthyProp v "product_name" || truthyProp v "name" ||
                    truthyProp v "hex_code" || truthyProp v "hex" ||
                    truthyProp v "color_name") then
                some (v :: vs)
              else none)
    | _ => none

/-! ### The canonical entity (`Product` in types.ts, fields as constructed at
geminiService.ts lines 187–195) -/

structure Product where
  id : String
  product : String
  name : String
  category : String
  hex : String
  url : String
  td : Option String
deriving DecidableEq, Repr

/-! ### Record normalization (`fetchPolymakerData` loop body,
geminiService.ts lines 151–199) -/

/-- The raw value of a first-truthy-wins chain `item.k1 || item.k2 || ...`:
the first truthy property value, if any (falsy property values such as `""`
or `0` are skipped, exactly like `||`). -/
def pickFieldOpt (item : Json) (keys : List String) : Option Json :=
  match keys with
  | [] => none
  | k :: ks =>
    match item.getProp k with
    | some v => if v.truthy then some v else pickFieldOpt item ks
    | none => pickFieldOpt item ks

/-- The value of `item.k1 || ... || dflt` as it ends up in an emitted
entity's string-typed field. The source stores the raw picked value;
representing entity fields as Lean strings converts it with `jsStr` at this
model boundary. The paths where the source instead calls a string method
(`toUpperCase`/`toLowerCase`) on the raw value — and therefore throws a
TypeError on a truthy non-string — are modelled separately and explicitly by
`recordThrows`; `pickField`'s conversion is only the storage representation
of the non-throwing runs. -/
def pickField (item : Json) (keys : List String) (dflt : String) : String :=
  match pickFieldOpt item keys with
  | some v => v.jsStr
  | none => dflt

/-- One `v !== undefined && v !== null && v !== ""` probe of the
transmission-distance fields, yielding `String(v)`. -/
def tdProbe (item : Json) (k : String) : Option String :=
  match item.getProp k with
  | some .null => none
  | some (.str "") => none
  | some v => some v.jsStr
  | none => none

/-- Transmission-distance resolution including the `td === "null"` cleanup. -/
def resolveTd (item : Json) : Option String :=
  let td :=
    match tdProbe item "transmission_distance" with
    | some s => some s
    | none => tdProbe item "td"
  match td with
  | some "null" => none
  | x => x

/-- The validation regex `/^#([0-9A-F]{3,8})$/i`. -/
def validHex (s : String) : Bool :=
  match s.toList with
  | '#' :: rest => (3 ≤ rest.length) && (rest.length ≤ 8) && rest.all isHexDig
  | _ => false

/-- `if (!hex.startsWith('#')) hex = '#' + hex`. -/
def ensureHash (s : String) : String :=
  if startsWithL ['#'] s.toList then s else "#" ++ s

/-- `item.id ? String(item.id) : normalize(product)-normalize(name)`. -/
def recordId (item : Json) (product name : String) : String :=
  match item.getProp "id" with
  | some v =>
    if v.truthy then v.jsStr else normalize product ++ "-" ++ normalize name
  | none => normalize product ++ "-" ++ normalize name

/-- The per-record part of the loop body on the non-throwing path: the
entity the record would emit, ignoring the cross-record dedup set; `none`
when the record is skipped (falsy record, no resolvable hex, or invalid
hex). Records on which the loop body instead throws a TypeError are
characterized by `recordThrows`; for them this value is never used. -/
def parseRecord (item : Json) : Option Product :=
  if item.truthy = false then none
  else
    let product := pickField item ["product_name", "product", "title"] "Unknown Product"
    let name := pickField item ["color_name", "name", "color"] "Unknown Color"
    let rawCategoryField := pickField item ["material", "material_type", "category", "type"] ""
    let category := parseCategory rawCategoryField product
    let url := pickField item ["product_url", "url", "link"] "https://us.polymaker.com"
    let td := resolveTd item
    match pickFieldOpt item
        ["hex_code", "hex", "hexcodes", "color_hex", "color_code", "value"] with
    | none => none
    | some raw =>
      let trimmed := jsTrim raw.jsStr
      if trimmed = "" then none
      else
        let hex := ensureHash trimmed
        if validHex hex then
          some ⟨recordId item product name, product, name, category, hex, url, td⟩
        else none

/-- A truthy value that is not a string: calling a string method
(`toUpperCase`, `toLowerCase`) on it throws a TypeError in JavaScript. -/
def nonStringTruthy : Option Json → Bool
  | some (.str _) => false
  | some v => v.truthy
  | none => false

/-- The loop body throws a TypeError on this record. For a truthy record the
source always evaluates `parseCategory(rawCategoryField, product)`, whose
`(val || "").toUpperCase()` / `(productName || "").toUpperCase()` throw when
the raw category field or the raw product value is a truthy non-string; and
when the record's hex resolves, trims non-empty and validates while
`item.id` is falsy, it evaluates
`normalize(product)-normalize(name)`, whose `toLowerCase()` throws when the
raw color-name value is a truthy non-string (a non-string product already
threw at `parseCategory`). -/
def recordThrows (item : Json) : Bool :=
  if item.truthy = false then false
  else
    nonStringTruthy (pickFieldOpt item ["material", "material_type", "category", "type"]) ||
    nonStringTruthy (pickFieldOpt item ["product_name", "product", "title"]) ||
    ((match pickFieldOpt item
        ["hex_code", "hex", "hexcodes", "color_hex", "color_code", "value"] with
      | some raw =>
        decide (jsTrim raw.jsStr ≠ "") && validHex (ensureHash (jsTrim raw.jsStr))
      | none => false) &&
      (match item.getProp "id" with
        | some v => !v.truthy
        | none => true) &&
      nonStringTruthy (pickFieldOpt item ["color_name", "name", "color"]))

/-- The loop over the record array with the `processedIds` dedup set,
returning the entities passed to `onProductFound` in order. -/
def processGo (seen : List String) : List Json → List Product
  | [] => []
  | item :: rest =>
    match parseRecord item with
    | some p =>
      if p.id ∈ seen then processGo seen rest
      else p :: processGo (p.id :: seen) rest
    | none => processGo seen rest

def processRecords (items : List Json) : List Product := processGo [] items

/-- The `processedIds` set as it stands after a run of the loop. -/
def seenAfter (seen : List String) : List Json → List String
  | [] => seen
  | item :: rest =>
    match parseRecord item with
    | some p =>
      if p.id ∈ seen then seenAfter seen rest
      else seenAfter (p.id :: seen) rest
    | none => seenAfter seen rest

/-- The in-loop progress behaviour: after every record that passes the
`if (!item) continue` guard, the loop fires `onProgress` exactly when the
running emitted count satisfies `count % 20 === 0`. Returns the counts
carried by those in-loop `onProgress` calls, in order. -/
def progressGo (count : ℕ) (seen : List String) : List Json → List ℕ
  | [] => []
  | item :: rest =>
    if item.truthy = false then progressGo count seen rest
    else
      let next : ℕ × List String :=
        match parseRecord item with
        | some p => if p.id ∈ seen then (count, seen) else (count + 1, p.id :: seen)
        | none => (count, seen)
      if next.1 % 20 = 0 then next.1 :: progressGo next.1 next.2 rest
      else progressGo next.1 next.2 rest

def progressCounts (items : List Json) : List ℕ := progressGo 0 [] items

/-! ### Acquisition chain and orchestrator
(`fetchJsonRobust` lines 121–128, `fetchPolymakerData` lines 134–212)

Each strategy attempt (AllOrigins, direct, CORSProxy) is an asynchronous
network interaction; its outcome is modelled as an `Option Json` input:
`some j` when the attempt produced decodable JSON `j`, `none` when it failed
(network error, timeout, non-success status, or parse failure). -/

inductive IngestError where
  | totalAcquisitionFailure : IngestError
  | noProductList : IngestError
  | noValidEntries : IngestError
  /-- An uncaught JavaScript TypeError escaping the record loop (a truthy
  non-string fed into `toUpperCase`/`toLowerCase`); it rejects the promise
  exactly like the deliberately thrown errors, as a fourth outcome. -/
  | typeError : IngestError
deriving DecidableEq, Repr

/-- `fetchJsonRobust`: try the strategies in order, surfacing a single
aggregate failure only when all three fail. -/
def fetchJsonRobust (allOrigins direct corsProxy : Option Json) :
    Except IngestError Json :=
  match allOrigins with
  | some j => .ok j
  | none =>
    match direct with
    | some j => .ok j
    | none =>
      match corsProxy with
      | some j => .ok j
      | none => .error .totalAcquisitionFailure

/-- The record loop including the per-record TypeError path: records are
processed in source order, and the first record on which the loop body
throws aborts the whole run with that TypeError (entities emitted before it
have already been streamed through `onProductFound`; the run's terminal
outcome is the thrown error, so the model returns only the error). A
non-throwing record emits or is silently skipped exactly as in
`processGo`. -/
def processRecordsThrow (seen : List String) :
    List Json → Except IngestError (List Product)
  | [] => .ok []
  | item :: rest =>
    if recordThrows item then .error .typeError
    else
      match parseRecord item with
      | some p =>
        if p.id ∈ seen then processRecordsThrow seen rest
        else (processRecordsThrow (p.id :: seen) rest).map (p :: ·)
      | none => processRecordsThrow seen rest

/-- `fetchPolymakerData`: acquire, decode, normalize and emit, with the two
whole-pipeline error checks, the possible uncaught per-record TypeError, and
the final no-valid-entries check. The returned list is the sequence of
`onProductFound` calls of a normally completing run. -/
def fetchPolymakerData (allOrigins direct corsProxy : Option Json) :
    Except IngestError (List Product) :=
  match fetchJsonRobust allOrigins direct corsProxy with
  | .error e => .error e
  | .ok rawData =>
    match findArrayInObject rawData with
    | none => .error .noProductList
    | some [] => .error .noProductList
    | some (item :: rest) =>
      match processRecordsThrow [] (item :: rest) with
      | .error e => .error e
      | .ok [] => .error .noValidEntries
      | .ok (p :: ps) => .ok (p :: ps)

/-! ### Clustering engine (`renderNodes` in Scene.tsx lines 165–225) -/

/-- Code-point lexicographic comparison on character lists, the embedding of
the ascending order induced by `a.localeCompare(b)`. -/
def lexLe : List Char → List Char → Bool
  | [], _ => true
  | _ :: _, [] => false
  | a :: as, b :: bs => if a < b then true else if b < a then false else lexLe as bs

def strLe (a b : String) : Bool := lexLe a.toList b.toList

/-- The intermediate `{ product, x, y, z }` items of step 2 of the clustering
(red, green, blue channels as coordinates). -/
structure Item where
  product : Product
  x : ℚ
  y : ℚ
  z : ℚ
deriving DecidableEq, Repr

def toItem (p : Product) : Item :=
  let rgb := hexToRgb p.hex
  ⟨p, rgb.r, rgb.g, rgb.b⟩

/-- An open cluster `{ products, x, y, z }` with its running centroid. -/
structure Cluster where
  products : List Product
  x : ℚ
  y : ℚ
  z : ℚ
deriving DecidableEq, Repr

/-- Squared Euclidean distance from a cluster's centroid to an item. -/
def dist2 (cluster : Cluster) (item : Item) : ℚ :=
  (cluster.x - item.x) ^ 2 + (cluster.y - item.y) ^ 2 + (cluster.z - item.z) ^ 2

/-- The acceptance test `Math.sqrt(dist2) < THRESHOLD`, embedded over `ℚ` as
the equivalent `0 < THRESHOLD ∧ dist2 < THRESHOLD ^ 2` (see
`fits_iff_sqrt_lt`). -/
def fits (threshold : ℚ) (cluster : Cluster) (item : Item) : Bool :=
  decide (0 < threshold ∧ dist2 cluster item < threshold ^ 2)

/-- The inner loop over existing clusters: the item joins the first cluster
(in creation order) whose centroid is within the threshold, updating that
cluster's centroid as a running mean; otherwise a new singleton cluster is
pushed at the end. -/
def insertItem (threshold : ℚ) (item : Item) : List Cluster → List Cluster
  | [] => [⟨[item.product], item.x, item.y, item.z⟩]
  | cluster :: rest =>
    if fits threshold cluster item then
      let n : ℚ := cluster.products.length + 1
      ⟨cluster.products ++ [item.product],
        (cluster.x * (n - 1) + item.x) / n,
        (cluster.y * (n - 1) + item.y) / n,
        (cluster.z * (n - 1) + item.z) / n⟩ :: rest
    else cluster :: insertItem threshold item rest

/-- Sort key: ascending `item.product.id`. -/
def itemLe (a b : Item) : Prop := strLe a.product.id b.product.id = true

instance : DecidableRel itemLe := fun _ _ => instDecidableEqBool _ _

/-- The clustering computation of `renderNodes`: filter the visible products,
map them to RGB-space items, sort by id, then run the greedy single pass. -/
def renderNodes (allProducts : List Product) (visibleProductIds : List String)
    (clusterThreshold : ℚ) : List Cluster :=
  let visibleProducts := allProducts.filter fun p => decide (p.id ∈ visibleProductIds)
  let items := visibleProducts.map toItem
  let sorted := List.insertionSort itemLe items
  sorted.foldl (fun clusters item => insertItem clusterThreshold item clusters) []

/-! ### Color aggregator (`displayColor` in FilamentNode.tsx lines 33–57) -/

/-- Executable embedding of `Math.round(Math.sqrt(q))` for a nonnegative
rational `q` (see `roundSqrt_eq_round_sqrt` for agreement with
`round (Real.sqrt q)`). -/
def roundSqrt (q : ℚ) : ℕ := (Nat.sqrt (Int.toNat ⌊4 * q⌋) + 1) / 2

/-- `displayColor`: a singleton cluster shows its member's own hex; a larger
cluster shows the per-channel root-mean-square mix, each channel rounded to
the nearest integer. Members whose hex fails the six-digit decode contribute
nothing to the sums (exactly like the `if (res)` guard in the source) but
still count in the denominator. -/
def displayColor (products : List Product) : String :=
  match products with
  | [p] => p.hex
  | ps =>
    let sums := ps.foldl (fun acc p =>
      match matchHex6 (expandShorthand p.hex.toList) with
      | some (r, g, b) => (acc.1 + r * r, acc.2.1 + g * g, acc.2.2 + b * b)
      | none => acc) ((0, 0, 0) : ℕ × ℕ × ℕ)
    let count := ps.length
    "rgb(" ++ toString (roundSqrt ((sums.1 : ℚ) / (count : ℚ))) ++ "," ++
      toString (roundSqrt ((sums.2.1 : ℚ) / (count : ℚ))) ++ "," ++
      toString (roundSqrt ((sums.2.2 : ℚ) / (count : ℚ))) ++ ")"

/-! ## Supporting lemmas about the clustering order -/

lemma lexLe_total : ∀ l₁ l₂ : List Char, lexLe l₁ l₂ = true ∨ lexLe l₂ l₁ = true := by
  intro l₁
  induction l₁ with
  | nil => intro l₂; left; rfl
  | cons a as ih =>
    intro l₂
    cases l₂ with
    | nil => right; rfl
    | cons b bs =>
      rcases lt_trichotomy a b with h | h | h
      · left; simp [lexLe, h]
      · subst h
        rcases ih bs with hh | hh
        · left; simp [lexLe, lt_irrefl, hh]
        · right; simp [lexLe, lt_irrefl, hh]
      · right; simp [lexLe, h]

lemma lexLe_trans : ∀ l₁ l₂ l₃ : List Char, lexLe l₁ l₂ = true →
    lexLe l₂ l₃ = true → lexLe l₁ l₃ = true := by
  intro l₁
  induction l₁ with
  | nil => intro l₂ l₃ _ _; rfl
  | cons a as ih =>
    intro l₂ l₃ h₁₂ h₂₃
    cases l₂ with
    | nil => simp [lexLe] at h₁₂
    | cons b bs =>
      cases l₃ with
      | nil => simp [lexLe] at h₂₃
      | cons c cs =>
        rcases lt_trichotomy a b with hab | hab | hab
        · rcases lt_trichotomy b c with hbc | hbc | hbc
          · simp [lexLe, lt_trans hab hbc]
          · subst hbc; simp [lexLe, hab]
          · simp [lexLe, asymm hbc, hbc] at h₂₃
        · subst hab
          rcases lt_trichotomy a c with hbc | hbc | hbc
          · simp [lexLe, hbc]
          · subst hbc
            simp only [lexLe, lt_irrefl, if_false] at h₁₂ h₂₃ ⊢
            exact ih bs cs h₁₂ h₂₃
          · simp [lexLe, asymm hbc, hbc] at h₂₃
        · simp [lexLe, asymm hab, hab] at h₁₂

lemma lexLe_antisymm : ∀ l₁ l₂ : List Char, lexLe l₁ l₂ = true →
    lexLe l₂ l₁ = true → l₁ = l₂ := by
  intro l₁
  induction l₁ with
  | nil =>
    intro l₂ _ h₂
    cases l₂ with
    | nil => rfl
    | cons b bs => simp [lexLe] at h₂
  | cons a as ih =>
    intro l₂ h₁ h₂
    cases l₂ with
    | nil => simp [lexLe] at h₁
    | cons b bs =>
      rcases lt_trichotomy a b with h | h | h
      · simp [lexLe, h, asymm h] at h₂
      · subst h
        simp only [lexLe, lt_irrefl, if_false] at h₁ h₂
        rw [ih bs h₁ h₂]
      · simp [lexLe, h, asymm h] at h₁

instance : IsTotal Item itemLe :=
  ⟨fun a b => by
    simp only [itemLe, strLe]
    exact lexLe_total _ _⟩

instance : IsTrans Item itemLe :=
  ⟨fun a b c hab hbc => by
    simp only [itemLe, strLe] at *
    exact lexLe_trans _ _ _ hab hbc⟩

lemma itemLe_key_antisymm {a b : Item} (h₁ : itemLe a b) (h₂ : itemLe b a) :
    a.product.id = b.product.id := by
  simp only [itemLe, strLe] at h₁ h₂
  exact String.toList_inj.mp (lexLe_antisymm _ _ h₁ h₂)

/-- Two lists of items that are permutations of each other, both sorted by
ascending product id, and whose ids are pairwise distinct, are equal. -/
lemma sorted_key_nodup_eq :
    ∀ l₁ l₂ : List Item, l₁.Perm l₂ → l₁.Sorted itemLe → l₂.Sorted itemLe →
      (l₁.map fun it => it.product.id).Nodup → l₁ = l₂ := by
  intro l₁
  induction l₁ with
  | nil =>
    intro l₂ hp _ _ _
    exact (hp.symm.eq_nil).symm
  | cons a t₁ ih =>
    intro l₂ hp hs₁ hs₂ hnd
    cases l₂ with
    | nil => exact absurd hp.eq_nil (by simp)
    | cons b t₂ =>
      by_cases hab : a = b
      · subst hab
        have ht := ih t₂ hp.cons_inv hs₁.of_cons hs₂.of_cons
          (by simpa [List.nodup_cons] using hnd.of_cons)
        rw [ht]
      · exfalso
        have ha2 : a ∈ t₂ := by
          have : a ∈ b :: t₂ := hp.subset (List.mem_cons_self a t₁)
          simpa [hab] using this
        have hb1 : b ∈ t₁ := by
          have : b ∈ a :: t₁ := hp.symm.subset (List.mem_cons_self b t₂)
          simpa [Ne.symm hab] using this
        have h₁ : itemLe a b := List.rel_of_sorted_cons hs₁ b hb1
        have h₂ : itemLe b a := List.rel_of_sorted_cons hs₂ a ha2
        have hkey : a.product.id = b.product.id := itemLe_key_antisymm h₁ h₂
        have : a.product.id ∈ t₁.map fun it => it.product.id := by
          rw [hkey]
          exact List.mem_map_of_mem _ hb1
        simp only [List.map_cons, List.nodup_cons] at hnd
        exact hnd.1 this

/-- Claim C2: for entry lists with pairwise distinct ids, the clustering
result is independent of the order of the input entry list, for every
visible-id set and every threshold — the id sort fixes the processing
order. -/
theorem renderNodes_deterministic (l₁ l₂ : List Product) (vis : List String)
    (T : ℚ) (hperm : l₁.Perm l₂) (hnd : (l₁.map Product.id).Nodup) :
    renderNodes l₁ vis T = renderNodes l₂ vis T := by
  unfold renderNodes
  have hfp : (l₁.filter fun p => decide (p.id ∈ vis)).Perm
      (l₂.filter fun p => decide (p.id ∈ vis)) := hperm.filter _
  have hip : ((l₁.filter fun p => decide (p.id ∈ vis)).map toItem).Perm
      ((l₂.filter fun p => decide (p.id ∈ vis)).map toItem) := hfp.map toItem
  have hsp : (List.insertionSort itemLe
        ((l₁.filter fun p => decide (p.id ∈ vis)).map toItem)).Perm
      (List.insertionSort itemLe
        ((l₂.filter fun p => decide (p.id ∈ vis)).map toItem)) :=
    ((List.perm_insertionSort itemLe _).trans hip).trans
      (List.perm_insertionSort itemLe _).symm
  have hkeys : ((List.insertionSort itemLe
      ((l₁.filter fun p => decide (p.id ∈ vis)).map toItem)).map
        fun it => it.product.id).Nodup := by
    have hmm : (((l₁.filter fun p => decide (p.id ∈ vis)).map toItem).map
        fun it => it.product.id) = (l₁.filter fun p => decide (p.id ∈ vis)).map
          Product.id := by
      rw [List.map_map]
      rfl
    have hsub : ((l₁.filter fun p => decide (p.id ∈ vis)).map Product.id).Sublist
        (l₁.map Product.id) := (List.filter_sublist l₁).map Product.id
    have hnd₂ : (((l₁.filter fun p => decide (p.id ∈ vis)).map toItem).map
        fun it => it.product.id).Nodup := by
      rw [hmm]
      exact hnd.sublist hsub
    exact ((List.perm_insertionSort itemLe _).map fun it => it.product.id).nodup_iff.mpr hnd₂
  have heq := sorted_key_nodup_eq _ _ hsp
    (List.sorted_insertionSort itemLe _) (List.sorted_insertionSort itemLe _) hkeys
  simp only [heq]

/-- Witness for `renderNodes_deterministic` at a concrete permuted pair. -/
theorem renderNodes_deterministic_witness :
    renderNodes
        [⟨"a", "P", "N", "Other", "#000000", "u", none⟩,
          ⟨"b", "P", "N", "Other", "#020202", "u", none⟩] ["a", "b"] 15 =
      renderNodes
        [⟨"b", "P", "N", "Other", "#020202", "u", none⟩,
          ⟨"a", "P", "N", "Other", "#000000", "u", none⟩] ["a", "b"] 15 :=
  renderNodes_deterministic _ _ _ _ (List.Perm.swap _ _ _) (by decide)

/-! ## Claim C1: greedy first-fit clustering, scenarios -/

lemma dist2_nonneg (cluster : Cluster) (item : Item) : 0 ≤ dist2 cluster item := by
  unfold dist2
  positivity

/-- The `ℚ`-level acceptance test is exactly the source's real-valued
`Math.sqrt(dx*dx + dy*dy + dz*dz) < THRESHOLD`. -/
lemma fits_iff_sqrt_lt (T : ℚ) (cluster : Cluster) (item : Item) :
    fits T cluster item = true ↔
      Real.sqrt ((dist2 cluster item : ℚ) : ℝ) < (T : ℝ) := by
  unfold fits
  rw [decide_eq_true_eq]
  constructor
  · rintro ⟨hT, hd⟩
    rw [Real.sqrt_lt' (by exact_mod_cast hT)]
    exact_mod_cast hd
  · intro h
    have hT : (0 : ℝ) < (T : ℝ) := lt_of_le_of_lt (Real.sqrt_nonneg _) h
    rw [Real.sqrt_lt' hT] at h
    exact ⟨by exact_mod_cast hT, by exact_mod_cast h⟩

/-- Entries for the spec scenario: RGB (0,0,0), (2,2,2), (200,200,200). -/
def eBlack : Product := ⟨"a", "P", "N", "Other", "#000000", "u", none⟩

def eNearBlack : Product := ⟨"b", "P", "N", "Other", "#020202", "u", none⟩

def eGray : Product := ⟨"c", "P", "N", "Other", "#c8c8c8", "u", none⟩

/-- Entries exhibiting first-fit-under-threshold (not nearest-fit): points
(0,0,0), (20,0,0), (12,0,0) processed in id order with threshold 15. -/
def gA : Product := ⟨"a", "P", "N", "Other", "#000000", "u", none⟩

def gB : Product := ⟨"b", "P", "N", "Other", "#140000", "u", none⟩

def gC : Product := ⟨"c", "P", "N", "Other", "#0c0000", "u", none⟩

/-- Claim C1: the clustering engine processes visible points in id-sorted
order, assigns each point to the first cluster (in creation order) whose
centroid is strictly within the threshold — the acceptance test being the
Euclidean-distance comparison `sqrt(dist2) < threshold` — updates that
cluster's centroid by the running mean, and opens a new singleton otherwise.
On the spec scenario, threshold 15 groups (0,0,0) with (2,2,2) (distance
√12 ≈ 3.46) leaving (200,200,200) a singleton, and threshold 400 merges all
three; the third conjunct shows a point joining the first fitting cluster
even though a later cluster is strictly nearer. -/
theorem renderNodes_first_fit_scenarios :
    (∀ T cluster item, fits T cluster item = true ↔
      Real.sqrt ((dist2 cluster item : ℚ) : ℝ) < (T : ℝ)) ∧
    renderNodes [eBlack, eNearBlack, eGray] ["a", "b", "c"] 15 =
      [⟨[eBlack, eNearBlack], 1, 1, 1⟩, ⟨[eGray], 200, 200, 200⟩] ∧
    renderNodes [eBlack, eNearBlack, eGray] ["a", "b", "c"] 400 =
      [⟨[eBlack, eNearBlack, eGray], 202 / 3, 202 / 3, 202 / 3⟩] ∧
    renderNodes [gA, gB, gC] ["a", "b", "c"] 15 =
      [⟨[gA, gC], 6, 0, 0⟩, ⟨[gB], 20, 0, 0⟩] ∧
    dist2 ⟨[gB], 20, 0, 0⟩ (toItem gC) < dist2 ⟨[gA], 0, 0, 0⟩ (toItem gC) :=
  ⟨fits_iff_sqrt_lt, by with_unfolding_all decide, by with_unfolding_all decide,
    by with_unfolding_all decide, by with_unfolding_all decide⟩

/-! ## Claim C3: behaviour of the hex utility on matching and non-matching
input -/

lemma matchHex6_le {l : List Char} {r g b : ℕ} (h : matchHex6 l = some (r, g, b)) :
    r ≤ 255 ∧ g ≤ 255 ∧ b ≤ 255 := by
  unfold matchHex6 at h
  split at h
  · split at h
    · simp only [Option.some.injEq, Prod.mk.injEq] at h
      obtain ⟨h1, h2, h3⟩ := h
      subst h1; subst h2; subst h3
      exact ⟨hexByte_le _ _, hexByte_le _ _, hexByte_le _ _⟩
    · simp at h
  · split at h
    · simp only [Option.some.injEq, Prod.mk.injEq] at h
      obtain ⟨h1, h2, h3⟩ := h
      subst h1; subst h2; subst h3
      exact ⟨hexByte_le _ _, hexByte_le _ _, hexByte_le _ _⟩
    · simp at h
  · simp at h

/-- Claim C3 counterexample: on input not matching the pattern the utility
does not return a null/absent result — it returns the channel triple
(0, 0, 0), indistinguishable from the decode of valid black `#000000`. -/
theorem hexToRgb_nonmatching_returns_black :
    hexToRgb "zzz" = ⟨0, 0, 0⟩ ∧ hexToRgb "zzz" = hexToRgb "#000000" := by
  constructor
  · decide
  · decide

/-- Claim C3 as amended: the hex utility is a total function into channel
triples: on matching input each channel lies in [0, 255] and the 3-digit
shorthand decodes by doubling each digit; on non-matching input it returns
the default triple (0, 0, 0) (rather than a null/absent result), and it
never throws. -/
theorem hexToRgb_total_spec :
    (∀ s, (hexToRgb s).r ≤ 255 ∧ (hexToRgb s).g ≤ 255 ∧ (hexToRgb s).b ≤ 255) ∧
    (∀ s, matchHex6 (expandShorthand s.toList) = none → hexToRgb s = ⟨0, 0, 0⟩) ∧
    (∀ a b c, isHexDig a = true → isHexDig b = true → isHexDig c = true →
      hexToRgb (String.mk ['#', a, b, c]) =
        ⟨hexByte a a, hexByte b b, hexByte c c⟩) := by
  refine ⟨?_, ?_, ?_⟩
  · intro s
    unfold hexToRgb
    split
    · next r g b h => exact matchHex6_le h
    · exact ⟨Nat.zero_le _, Nat.zero_le _, Nat.zero_le _⟩
  · intro s h
    unfold hexToRgb
    rw [h]
  · intro a b c ha hb hc
    unfold hexToRgb
    simp [expandShorthand, matchHex6, ha, hb, hc, String.toList]

/-- Witness for `hexToRgb_total_spec` at concrete inputs. -/
theorem hexToRgb_total_spec_witness :
    hexToRgb "zz" = ⟨0, 0, 0⟩ ∧
    hexToRgb (String.mk ['#', 'f', '0', '0']) =
      ⟨hexByte 'f' 'f', hexByte '0' '0', hexByte '0' '0'⟩ :=
  ⟨hexToRgb_total_spec.2.1 "zz" (by decide),
    hexToRgb_total_spec.2.2 'f' '0' '0' (by decide) (by decide) (by decide)⟩

/-! ## Claim C10: 4/5/7/8-digit hexes pass the normalizer's validation but
decode to black, so they are plotted and clustered at the RGB origin -/

lemma hexToRgb_long_black : ∀ cs : List Char,
    cs.length = 4 ∨ cs.length = 5 ∨ cs.length = 7 ∨ cs.length = 8 →
    hexToRgb (String.mk ('#' :: cs)) = ⟨0, 0, 0⟩ := by
  intro cs hlen
  rcases cs with _ | ⟨a, _ | ⟨b, _ | ⟨c, _ | ⟨d, _ | ⟨e, _ | ⟨f, _ | ⟨g, _ |
    ⟨h, _ | ⟨i, t⟩⟩⟩⟩⟩⟩⟩⟩⟩ <;>
      simp only [List.length_cons, List.length_nil] at hlen <;> first
        | omega
        | rfl

/-- A single visible product always forms one singleton cluster positioned at
its decoded channels, for every threshold. -/
lemma renderNodes_singleton (p : Product) (T : ℚ) :
    renderNodes [p] [p.id] T =
      [⟨[p], (hexToRgb p.hex).r, (hexToRgb p.hex).g, (hexToRgb p.hex).b⟩] := by
  unfold renderNodes
  simp [List.insertionSort, insertItem, toItem]

/-- The concrete entry shape used for Claim C10. -/
def mkEntry (hex : String) : Product := ⟨"e", "P", "N", "Other", hex, "u", none⟩

/-- Claim C10: a hex string of 4, 5, 7 or 8 hex digits passes the
normalizer's validation pattern `#([0-9A-F]{3,8})`, yet the plotting decode
`hexToRgb` fails on it and yields (0, 0, 0); an entry carrying such a hex is
therefore still plotted and clustered — as a cluster at the RGB origin — for
every threshold, rather than being excluded. -/
theorem validated_but_undecodable_hex_at_origin (cs : List Char)
    (hall : cs.all isHexDig = true)
    (hlen : cs.length = 4 ∨ cs.length = 5 ∨ cs.length = 7 ∨ cs.length = 8) :
    validHex (String.mk ('#' :: cs)) = true ∧
    hexToRgb (String.mk ('#' :: cs)) = ⟨0, 0, 0⟩ ∧
    ∀ T : ℚ, renderNodes [mkEntry (String.mk ('#' :: cs))] ["e"] T =
      [⟨[mkEntry (String.mk ('#' :: cs))], 0, 0, 0⟩] := by
  have hblack := hexToRgb_long_black cs hlen
  refine ⟨?_, hblack, ?_⟩
  · simp only [validHex, String.toList, hall, Bool.and_true]
    rcases hlen with h | h | h | h <;> simp [h]
  · intro T
    have := renderNodes_singleton (mkEntry (String.mk ('#' :: cs))) T
    simp only [mkEntry] at this hblack ⊢
    rw [this, hblack]
    norm_num

/-- Witness for `validated_but_undecodable_hex_at_origin` at the 4-digit hex
`#abcd` with threshold 15. -/
theorem validated_but_undecodable_hex_at_origin_witness :
    validHex (String.mk ('#' :: ['a', 'b', 'c', 'd'])) = true ∧
    hexToRgb (String.mk ('#' :: ['a', 'b', 'c', 'd'])) = ⟨0, 0, 0⟩ ∧
    renderNodes [mkEntry (String.mk ('#' :: ['a', 'b', 'c', 'd']))] ["e"] 15 =
      [⟨[mkEntry (String.mk ('#' :: ['a', 'b', 'c', 'd']))], 0, 0, 0⟩] := by
  obtain ⟨h1, h2, h3⟩ := validated_but_undecodable_hex_at_origin
    ['a', 'b', 'c', 'd'] (by decide) (by decide)
  exact ⟨h1, h2, h3 15⟩

/-! ## Claim C7: the category classifier -/

/-- The classifier's ordered test list, as data: category name paired with
its substring test (`v` is the upper-cased raw category field, `n` the
upper-cased product name; FLEX, PA6 and PA12 probe the category field
only). -/
def categoryTests (val productName : String) : List (String × Bool) :=
  let v := toUpperStr val
  let n := toUpperStr productName
  [("PLA", jsIncludes v "PLA" || jsIncludes n "PLA"),
   ("PETG", jsIncludes v "PETG" || jsIncludes n "PETG"),
   ("ABS", jsIncludes v "ABS" || jsIncludes n "ABS"),
   ("ASA", jsIncludes v "ASA" || jsIncludes n "ASA"),
   ("TPU", jsIncludes v "TPU" || jsIncludes v "FLEX" || jsIncludes n "TPU"),
   ("Nylon", jsIncludes v "NYLON" || jsIncludes v "PA6" || jsIncludes v "PA12" ||
     jsIncludes n "NYLON"),
   ("PC", jsIncludes v "PC" || jsIncludes n "PC"),
   ("PVB", jsIncludes v "PVB" || jsIncludes n "PVB"),
   ("Wood", jsIncludes v "WOOD" || jsIncludes n "WOOD")]

/-- A right-nested if-chain over a test list equals first-match-wins search
over that list. -/
lemma ifChain_eq_find? (dflt : String) : ∀ tests : List (String × Bool),
    tests.foldr (fun t acc => if t.2 then t.1 else acc) dflt =
      ((tests.find? Prod.snd).map Prod.fst).getD dflt := by
  intro tests
  induction tests with
  | nil => rfl
  | cons t rest ih => cases h : t.2 <;> simp [List.find?, h, ih]

/-- Claim C7: the classifier is total — it equals the first test of the fixed
ordered list PLA, PETG, ABS, ASA, TPU/FLEX, Nylon, PC, PVB, Wood that
matches, defaulting to Other — and matches case-insensitively against either
string, FLEX/PA6/PA12 against the category field only. In particular
"PA12 Nylon Blend" classifies as Nylon, not Other. -/
theorem parseCategory_total_first_match :
    (∀ val productName, parseCategory val productName =
      (((categoryTests val productName).find? Prod.snd).map Prod.fst).getD "Other") ∧
    (∀ val productName, parseCategory val productName ∈
      ["PLA", "PETG", "ABS", "ASA", "TPU", "Nylon", "PC", "PVB", "Wood", "Other"]) ∧
    parseCategory "PA12 Nylon Blend" "" = "Nylon" ∧
    parseCategory "TPU of PLA" "" = "PLA" ∧
    parseCategory "pla" "" = "PLA" ∧
    parseCategory "" "PolyMax pla" = "PLA" ∧
    parseCategory "FLEXIBLE" "" = "TPU" ∧
    parseCategory "" "FLEXIBLE" = "Other" ∧
    parseCategory "pa6" "" = "Nylon" ∧
    parseCategory "" "PA6" = "Other" := by
  refine ⟨?_, ?_, by decide, by decide, by decide, by decide, by decide,
    by decide, by decide, by decide⟩
  · intro val productName
    rw [← ifChain_eq_find?]
    rfl
  · intro val productName
    simp only [parseCategory]
    split_ifs <;> decide

/-! ## Claim C8: the response decoder -/

/-- A product-like record used in the decoder examples. -/
def recX : Json := .obj [("name", .str "X")]

/-- A second record for the decoder examples. -/
def recY : Json := .obj [("name", .str "Y")]

/-- Claim C8: the decoder returns an array unchanged; on an object it returns
the first array-valued property among "data", "products", "items" in that
order; a dictionary of objects whose first value has a product-like key
yields the object's values; the three shapes `{"data": [...]}`, `[...]` and
`{"0": {...}, "1": {...}}` yield the same record list, and `{"foo": "bar"}`
yields not-found. -/
theorem findArrayInObject_shapes :
    (∀ l, findArrayInObject (.arr l) = some l) ∧
    (∀ fields l, arrProp fields "data" = some l →
      findArrayInObject (.obj fields) = some l) ∧
    (∀ fields l, arrProp fields "data" = none →
      arrProp fields "products" = some l →
      findArrayInObject (.obj fields) = some l) ∧
    (∀ fields l, arrProp fields "data" = none →
      arrProp fields "products" = none → arrProp fields "items" = some l →
      findArrayInObject (.obj fields) = some l) ∧
    findArrayInObject (.arr [recX, recY]) = some [recX, recY] ∧
    findArrayInObject (.obj [("data", .arr [recX, recY])]) = some [recX, recY] ∧
    findArrayInObject (.obj [("0", recX), ("1", recY)]) = some [recX, recY] ∧
    findArrayInObject (.obj [("foo", .str "bar")]) = none := by
  refine ⟨?_, ?_, ?_, ?_, rfl, rfl, rfl, rfl⟩
  · intro l
    rfl
  · intro fields l h
    simp [findArrayInObject, Json.truthy, h, Option.orElse]
  · intro fields l h1 h2
    simp [findArrayInObject, Json.truthy, h1, h2, Option.orElse]
  · intro fields l h1 h2 h3
    simp [findArrayInObject, Json.truthy, h1, h2, h3, Option.orElse]

/-- Witness for `findArrayInObject_shapes`: the priority conjuncts at
concrete objects. -/
theorem findArrayInObject_shapes_witness :
    findArrayInObject (.obj [("items", .arr [recY]), ("data", .arr [recX])]) =
      some [recX] ∧
    findArrayInObject (.obj [("products", .arr [recX])]) = some [recX] ∧
    findArrayInObject (.obj [("products", .str "no"), ("items", .arr [recY])]) =
      some [recY] :=
  ⟨findArrayInObject_shapes.2.1 _ _ rfl,
    findArrayInObject_shapes.2.2.1 _ _ rfl rfl,
    findArrayInObject_shapes.2.2.2.1 _ _ rfl rfl rfl⟩

/-! ## Claim C5: dedup by id, first occurrence wins -/

/-- The emitted entities carrying id `i` are exactly the first record (in
source order) that normalizes successfully to id `i` — independent of what
ids are already in the dedup set, except that already-seen ids yield
nothing. -/
lemma processGo_filter (i : String) : ∀ (items : List Json) (seen : List String),
    (processGo seen items).filter (fun p => decide (p.id = i)) =
      if i ∈ seen then []
      else ((items.filterMap parseRecord).find? fun p => decide (p.id = i)).toList := by
  intro items
  induction items with
  | nil =>
    intro seen
    simp only [processGo, List.filter_nil, List.filterMap_nil, List.find?_nil]
    split <;> rfl
  | cons item rest ih =>
    intro seen
    cases hp : parseRecord item with
    | none =>
      simp only [processGo, hp, List.filterMap_cons, ih]
    | some p =>
      simp only [processGo, hp, List.filterMap_cons]
      by_cases hmem : p.id ∈ seen
      · rw [if_pos hmem, ih seen]
        by_cases hi : i ∈ seen
        · rw [if_pos hi, if_pos hi]
        · rw [if_neg hi, if_neg hi]
          have hne : ¬ p.id = i := fun h => hi (h ▸ hmem)
          rw [List.find?_cons_of_neg _ (by simpa using hne)]
      · rw [if_neg hmem]
        by_cases hpi : p.id = i
        · have hi : i ∉ seen := fun h => hmem (hpi ▸ h)
          rw [if_neg hi]
          rw [List.filter_cons_of_pos (by simpa using hpi)]
          rw [List.find?_cons_of_pos _ (by simpa using hpi)]
          rw [ih (p.id :: seen), if_pos (by simp [hpi])]
          rfl
        · rw [List.filter_cons_of_neg (by simpa using hpi)]
          rw [List.find?_cons_of_neg _ (by simpa using hpi)]
          rw [ih (p.id :: seen)]
          by_cases hi : i ∈ seen
          · rw [if_pos (by simp [hi]), if_pos hi]
          · have hni : i ∉ p.id :: seen := by
              simp only [List.mem_cons]
              rintro (h | h)
              · exact hpi h.symm
              · exact hi h
            rw [if_neg hni, if_neg hi]

/-- The loop never emits an id twice, and never emits an id already in the
dedup set. -/
lemma processGo_id_nodup : ∀ (items : List Json) (seen : List String),
    ((processGo seen items).map Product.id).Nodup ∧
      ∀ p ∈ processGo seen items, p.id ∉ seen := by
  intro items
  induction items with
  | nil => intro seen; simp [processGo]
  | cons item rest ih =>
    intro seen
    cases hp : parseRecord item with
    | none => simpa only [processGo, hp] using ih seen
    | some p =>
      simp only [processGo, hp]
      by_cases hmem : p.id ∈ seen
      · rw [if_pos hmem]
        exact ih seen
      · rw [if_neg hmem]
        obtain ⟨ihn, ihs⟩ := ih (p.id :: seen)
        refine ⟨?_, ?_⟩
        · simp only [List.map_cons, List.nodup_cons]
          refine ⟨?_, ihn⟩
          intro hc
          obtain ⟨q, hq, hqe⟩ := List.mem_map.mp hc
          exact ihs q hq (hqe ▸ List.mem_cons_self _ _)
        · intro q hq
          rcases List.mem_cons.mp hq with rfl | hq'
          · exact hmem
          · intro hs
            exact ihs q hq' (List.mem_cons_of_mem _ hs)

/-- Claim C5: in a processed raw record list, ids are pairwise distinct in
the emitted stream, and for every id the emitted entities with that id are
exactly the (optional) entity derived from the first record that validly
normalizes to it; second and later occurrences are silently discarded. -/
theorem processRecords_dedup_first_wins :
    (∀ items : List Json, ((processRecords items).map Product.id).Nodup) ∧
    (∀ (items : List Json) (i : String),
      (processRecords items).filter (fun p => decide (p.id = i)) =
        ((items.filterMap parseRecord).find? fun p => decide (p.id = i)).toList) := by
  constructor
  · intro items
    exact (processGo_id_nodup items []).1
  · intro items i
    rw [processRecords, processGo_filter i items []]
    simp

/-! ## Claim C6: single fatal error per run; per-record problems never
abort -/

/-- Appending a record that does not validly normalize leaves the emitted
stream unchanged — an invalid record never aborts or alters the run. -/
lemma processGo_append_invalid : ∀ (items : List Json) (seen : List String)
    (item : Json), parseRecord item = none →
    processGo seen (items ++ [item]) = processGo seen items := by
  intro items
  induction items with
  | nil =>
    intro seen item h
    simp [processGo, h]
  | cons it rest ih =>
    intro seen item h
    cases hp : parseRecord it with
    | none =>
      simp only [List.cons_append, processGo, hp, List.append_eq]
      exact ih seen item h
    | some p =>
      simp only [List.cons_append, processGo, hp, List.append_eq]
      by_cases hmem : p.id ∈ seen
      · rw [if_pos hmem, if_pos hmem]
        exact ih seen item h
      · rw [if_neg hmem, if_neg hmem, ih (p.id :: seen) item h]

/-- Appending a record that normalizes to an already-emitted (or
already-seen) id leaves the emitted stream unchanged — a duplicate record is
silently discarded rather than aborting the run. -/
lemma processGo_append_dup : ∀ (items : List Json) (seen : List String)
    (item : Json) (p : Product), parseRecord item = some p →
    (p.id ∈ seen ∨ p.id ∈ (processGo seen items).map Product.id) →
    processGo seen (items ++ [item]) = processGo seen items := by
  intro items
  induction items with
  | nil =>
    intro seen item p h hmem
    rcases hmem with hmem | hmem
    · simp [processGo, h, hmem]
    · simp [processGo] at hmem
  | cons it rest ih =>
    intro seen item p h hmem
    cases hp : parseRecord it with
    | none =>
      simp only [List.cons_append, processGo, hp, List.append_eq]
      refine ih seen item p h ?_
      simpa only [processGo, hp] using hmem
    | some q =>
      simp only [List.cons_append, processGo, hp, List.append_eq]
      by_cases hq : q.id ∈ seen
      · rw [if_pos hq, if_pos hq]
        refine ih seen item p h ?_
        simpa only [processGo, hp, if_pos hq] using hmem
      · rw [if_neg hq, if_neg hq]
        have hmem' : p.id ∈ q.id :: seen ∨
            p.id ∈ (processGo (q.id :: seen) rest).map Product.id := by
          rcases hmem with hmem | hmem
          · exact Or.inl (List.mem_cons_of_mem _ hmem)
          · simp only [processGo, hp, if_neg hq, List.map_cons,
              List.mem_cons] at hmem
            rcases hmem with hmem | hmem
            · exact Or.inl (hmem ▸ List.mem_cons_self _ _)
            · exact Or.inr hmem
        rw [ih (q.id :: seen) item p h hmem']

/-- Errors produced by the record loop itself are always the TypeError. -/
lemma processRecordsThrow_error_eq : ∀ (items : List Json) (seen : List String)
    (e : IngestError), processRecordsThrow seen items = .error e →
    e = .typeError := by
  intro items
  induction items with
  | nil =>
    intro seen e h
    simp [processRecordsThrow] at h
  | cons item rest ih =>
    intro seen e h
    by_cases ht : recordThrows item = true
    · simp only [processRecordsThrow, ht, if_true, Except.error.injEq] at h
      exact h.symm
    · have ht2 : recordThrows item = false := by simpa using ht
      cases hp : parseRecord item with
      | none =>
        simp only [processRecordsThrow, hp, ht2] at h
        exact ih seen e h
      | some p =>
        simp only [processRecordsThrow, hp, ht2] at h
        by_cases hmem : p.id ∈ seen
        · rw [if_pos hmem] at h
          exact ih seen e h
        · rw [if_neg hmem] at h
          cases hrec : processRecordsThrow (p.id :: seen) rest with
          | error e2 =>
            have he2 : e2 = .typeError := ih (p.id :: seen) e2 hrec
            rw [hrec, he2] at h
            simpa [Except.map] using h.symm
          | ok l =>
            rw [hrec] at h
            simp [Except.map] at h

/-- On a record list with no throwing record, the loop with the TypeError
path computes exactly the plain dedup loop. -/
lemma processRecordsThrow_eq_ok : ∀ (items : List Json) (seen : List String),
    (∀ item ∈ items, recordThrows item = false) →
    processRecordsThrow seen items = .ok (processGo seen items) := by
  intro items
  induction items with
  | nil => intro seen _; rfl
  | cons item rest ih =>
    intro seen h
    have hhead : recordThrows item = false := h item (List.mem_cons_self _ _)
    have htail : ∀ x ∈ rest, recordThrows x = false :=
      fun x hx => h x (List.mem_cons_of_mem _ hx)
    cases hp : parseRecord item with
    | none =>
      simp only [processRecordsThrow, processGo, hp, hhead]
      exact ih seen htail
    | some p =>
      simp only [processRecordsThrow, processGo, hp, hhead]
      by_cases hmem : p.id ∈ seen
      · rw [if_pos hmem, if_pos hmem]
        exact ih seen htail
      · rw [if_neg hmem, if_neg hmem, ih (p.id :: seen) htail]
        rfl

/-- A record list containing a throwing record makes the loop abort with the
TypeError, whatever the dedup state. -/
lemma processRecordsThrow_throws : ∀ (items : List Json) (seen : List String),
    (∃ item ∈ items, recordThrows item = true) →
    processRecordsThrow seen items = .error .typeError := by
  intro items
  induction items with
  | nil =>
    intro seen h
    simp at h
  | cons item rest ih =>
    intro seen h
    by_cases hhead : recordThrows item = true
    · simp only [processRecordsThrow, hhead, if_true]
    · have htail : ∃ x ∈ rest, recordThrows x = true := by
        rcases h with ⟨x, hx, hthrow⟩
        rcases List.mem_cons.mp hx with rfl | hx2
        · exact absurd hthrow hhead
        · exact ⟨x, hx2, hthrow⟩
      cases hp : parseRecord item with
      | none =>
        simp only [processRecordsThrow, hp, hhead, if_false]
        exact ih seen htail
      | some p =>
        simp only [processRecordsThrow, hp, hhead, if_false]
        by_cases hmem : p.id ∈ seen
        · rw [if_pos hmem]
          exact ih seen htail
        · rw [if_neg hmem, ih (p.id :: seen) htail]
          rfl

/-- Appending a non-throwing record that does not validly normalize leaves
the run's loop outcome unchanged. -/
lemma processRecordsThrow_append_invalid (items : List Json) (item : Json)
    (hthrow : recordThrows item = false) (hparse : parseRecord item = none) :
    processRecordsThrow [] (items ++ [item]) = processRecordsThrow [] items := by
  by_cases h : ∃ x ∈ items, recordThrows x = true
  · rw [processRecordsThrow_throws items [] h,
      processRecordsThrow_throws (items ++ [item]) []]
    rcases h with ⟨x, hx, ht⟩
    exact ⟨x, List.mem_append_left _ hx, ht⟩
  · push_neg at h
    have hall : ∀ x ∈ items, recordThrows x = false := by
      intro x hx
      simpa using h x hx
    have hall2 : ∀ x ∈ items ++ [item], recordThrows x = false := by
      intro x hx
      rcases List.mem_append.mp hx with hx | hx
      · exact hall x hx
      · rw [List.mem_singleton.mp hx]
        exact hthrow
    rw [processRecordsThrow_eq_ok _ _ hall, processRecordsThrow_eq_ok _ _ hall2,
      processGo_append_invalid items [] item hparse]

/-- Appending a non-throwing record that normalizes to an already-emitted id
leaves the run's loop outcome unchanged. -/
lemma processRecordsThrow_append_dup (items : List Json) (item : Json)
    (p : Product) (hthrow : recordThrows item = false)
    (hparse : parseRecord item = some p)
    (hmem : p.id ∈ (processRecords items).map Product.id) :
    processRecordsThrow [] (items ++ [item]) = processRecordsThrow [] items := by
  by_cases h : ∃ x ∈ items, recordThrows x = true
  · rw [processRecordsThrow_throws items [] h,
      processRecordsThrow_throws (items ++ [item]) []]
    rcases h with ⟨x, hx, ht⟩
    exact ⟨x, List.mem_append_left _ hx, ht⟩
  · push_neg at h
    have hall : ∀ x ∈ items, recordThrows x = false := by
      intro x hx
      simpa using h x hx
    have hall2 : ∀ x ∈ items ++ [item], recordThrows x = false := by
      intro x hx
      rcases List.mem_append.mp hx with hx | hx
      · exact hall x hx
      · rw [List.mem_singleton.mp hx]
        exact hthrow
    rw [processRecordsThrow_eq_ok _ _ hall, processRecordsThrow_eq_ok _ _ hall2,
      processGo_append_dup items [] item p hparse (Or.inr hmem)]

/-- A concrete valid raw record. -/
def recValid : Json :=
  .obj [("id", .str "1"), ("hex", .str "#FF0000"), ("product_name", .str "X"),
    ("color_name", .str "Red")]

/-- The entity `recValid` normalizes to. -/
def prodValid : Product :=
  ⟨"1", "X", "Red", "Other", "#FF0000", "https://us.polymaker.com", none⟩

/-- A raw record that is individually malformed in a way the pipeline does
not tolerate: its `material` field is the truthy non-string `7`, so
`parseCategory` evaluates `(7 || "").toUpperCase()` and the loop body throws
an uncaught TypeError. -/
def recThrowing : Json := .obj [("material", .num 7), ("hex_code", .str "#FFF")]

/-- Claim C6 counterexample: a single individually malformed record aborts
the whole ingestion run with a TypeError — an error that is none of the
three claimed fatal kinds — even though the same run without that record
completes normally with one emitted entity. So a run does not always
complete normally or raise one of the three claimed errors, and an
individual invalid record can abort the run. -/
theorem malformed_record_aborts_run :
    fetchPolymakerData (some (.arr [recValid, recThrowing])) none none =
      .error .typeError ∧
    (IngestError.typeError ≠ .totalAcquisitionFailure ∧
      IngestError.typeError ≠ .noProductList ∧
      IngestError.typeError ≠ .noValidEntries) ∧
    fetchPolymakerData (some (.arr [recValid])) none none = .ok [prodValid] :=
  ⟨rfl, by decide, rfl⟩

/-- Claim C6 as amended: a run either completes normally with at least one
emitted entity or raises exactly one fatal error, which is one of FOUR
kinds: the aggregate acquisition failure exactly when every strategy fails;
the no-product-list error when no (or an empty) record array is located; an
uncaught TypeError when some record feeds a truthy non-string value into the
classifier's or id-normalizer's string methods — the one way an individual
record aborts the run; or the no-valid-entries error when all records were
processed but none was emitted. Apart from the TypeError path, an invalid
(unparseable-hex) or duplicate record never aborts or alters the run. -/
theorem fetchPolymakerData_error_modes :
    (∀ a b c l, fetchPolymakerData a b c = .ok l → l ≠ []) ∧
    (∀ a b c, fetchPolymakerData a b c = .error .totalAcquisitionFailure ↔
      a = none ∧ b = none ∧ c = none) ∧
    (∀ j b c, findArrayInObject j = none ∨ findArrayInObject j = some [] →
      fetchPolymakerData (some j) b c = .error .noProductList) ∧
    (∀ j b c items, findArrayInObject j = some items → items ≠ [] →
      (∀ item ∈ items, recordThrows item = false) →
      fetchPolymakerData (some j) b c =
        (match processRecords items with
          | [] => .error .noValidEntries
          | p :: ps => .ok (p :: ps))) ∧
    (∀ j b c items, findArrayInObject j = some items →
      (∃ item ∈ items, recordThrows item = true) →
      fetchPolymakerData (some j) b c = .error .typeError) ∧
    (∀ items item, recordThrows item = false → parseRecord item = none →
      processRecordsThrow [] (items ++ [item]) = processRecordsThrow [] items) ∧
    (∀ items item p, recordThrows item = false → parseRecord item = some p →
      p.id ∈ (processRecords items).map Product.id →
      processRecordsThrow [] (items ++ [item]) = processRecordsThrow [] items) := by
  refine ⟨?_, ?_, ?_, ?_, ?_, ?_, ?_⟩
  · intro a b c l h
    unfold fetchPolymakerData at h
    split at h
    · simp at h
    · split at h
      · simp at h
      · simp at h
      · split at h
        · simp at h
        · simp at h
        · simp only [Except.ok.injEq] at h
          subst h
          simp
  · intro a b c
    constructor
    · intro h
      unfold fetchPolymakerData fetchJsonRobust at h
      cases a with
      | some j =>
        exfalso
        simp only at h
        split at h
        · simp at h
        · simp at h
        · split at h
          · next e _ heq =>
            simp only [Except.error.injEq] at h
            exact absurd (h ▸ processRecordsThrow_error_eq _ _ _ heq) (by decide)
          · simp at h
          · simp at h
      | none =>
        cases b with
        | some j =>
          exfalso
          simp only at h
          split at h
          · simp at h
          · simp at h
          · split at h
            · next e _ heq =>
              simp only [Except.error.injEq] at h
              exact absurd (h ▸ processRecordsThrow_error_eq _ _ _ heq) (by decide)
            · simp at h
            · simp at h
        | none =>
          cases c with
          | some j =>
            exfalso
            simp only at h
            split at h
            · simp at h
            · simp at h
            · split at h
              · next e _ heq =>
                simp only [Except.error.injEq] at h
                exact absurd (h ▸ processRecordsThrow_error_eq _ _ _ heq) (by decide)
              · simp at h
              · simp at h
          | none => exact ⟨rfl, rfl, rfl⟩
    · rintro ⟨rfl, rfl, rfl⟩
      rfl
  · intro j b c h
    rcases h with h | h <;> simp [fetchPolymakerData, fetchJsonRobust, h]
  · intro j b c items h hne hthrow
    cases items with
    | nil => exact absurd rfl hne
    | cons it rest =>
      simp only [fetchPolymakerData, fetchJsonRobust, h, processRecords,
        processRecordsThrow_eq_ok (it :: rest) [] hthrow]
      cases processGo [] (it :: rest) with
      | nil => rfl
      | cons p ps => rfl
  · intro j b c items h hthrow
    rcases items with _ | ⟨it, rest⟩
    · rcases hthrow with ⟨x, hx, _⟩
      simp at hx
    · simp only [fetchPolymakerData, fetchJsonRobust, h,
        processRecordsThrow_throws (it :: rest) [] hthrow]
  · intro items item hthrow hparse
    exact processRecordsThrow_append_invalid items item hthrow hparse
  · intro items item p hthrow hparse hmem
    exact processRecordsThrow_append_dup items item p hthrow hparse hmem

/-- A raw record whose hex field is an array: `["abc"].toString()` is
"abc", so the source emits an entity with hex `#abc`. -/
def recArrayHex : Json := .obj [("hex", .arr [.str "abc"])]

/-- The entity `recArrayHex` normalizes to. -/
def prodArrayHex : Product :=
  ⟨"unknownproduct-unknowncolor", "Unknown Product", "Unknown Color", "Other",
    "#abc", "https://us.polymaker.com", none⟩

/-- Witness for `fetchPolymakerData_error_modes` at concrete inputs: a
successful run emits a nonempty list (also for the array-valued-hex record,
whose stringified hex is emitted); a non-decodable body raises the
no-product-list error; an all-invalid record list raises the
no-valid-entries error; a malformed record raises the TypeError; appending a
non-throwing invalid or duplicate record changes nothing. -/
theorem fetchPolymakerData_error_modes_witness :
    (([prodValid] : List Product) ≠ [] ∧ ([prodArrayHex] : List Product) ≠ []) ∧
    fetchPolymakerData (some (.str "x")) none none = .error .noProductList ∧
    fetchPolymakerData (some (.arr [.null])) none none =
      (match processRecords [(.null : Json)] with
        | [] => .error .noValidEntries
        | p :: ps => .ok (p :: ps)) ∧
    fetchPolymakerData (some (.arr [recThrowing])) none none =
      .error .typeError ∧
    processRecordsThrow [] [recValid, .null] = processRecordsThrow [] [recValid] ∧
    processRecordsThrow [] [recValid, recValid] =
      processRecordsThrow [] [recValid] := by
  refine ⟨⟨?_, ?_⟩, ?_, ?_, ?_, ?_, ?_⟩
  · exact fetchPolymakerData_error_modes.1 (some (.arr [recValid])) none none
      [prodValid] rfl
  · exact fetchPolymakerData_error_modes.1 (some (.arr [recArrayHex])) none none
      [prodArrayHex] rfl
  · exact fetchPolymakerData_error_modes.2.2.1 (.str "x") none none (Or.inl rfl)
  · exact fetchPolymakerData_error_modes.2.2.2.1 (.arr [.null]) none none
      [(.null : Json)] rfl (by simp) (by decide)
  · exact fetchPolymakerData_error_modes.2.2.2.2.1 (.arr [recThrowing]) none none
      [recThrowing] rfl ⟨recThrowing, List.mem_cons_self _ _, by decide⟩
  · exact fetchPolymakerData_error_modes.2.2.2.2.2.1 [recValid] .null
      (by decide) rfl
  · exact fetchPolymakerData_error_modes.2.2.2.2.2.2 [recValid] recValid prodValid
      (by decide) (by decide) (by decide)

/-! ## Claim C9: in-loop progress callback cadence -/

/-- The running emitted count after each record that passes the loop's
`if (!item) continue` guard (the reference stream for the progress-cadence
analysis). -/
def emittedCountsGo (count : ℕ) (seen : List String) : List Json → List ℕ
  | [] => []
  | item :: rest =>
    if item.truthy = false then emittedCountsGo count seen rest
    else
      let next : ℕ × List String :=
        match parseRecord item with
        | some p => if p.id ∈ seen then (count, seen) else (count + 1, p.id :: seen)
        | none => (count, seen)
      next.1 :: emittedCountsGo next.1 next.2 rest

def emittedCounts (items : List Json) : List ℕ := emittedCountsGo 0 [] items

/-- Claim C9 counterexample: processing a single truthy record that emits
nothing fires the in-loop progress callback once, carrying count 0 — even
though zero entities have been emitted and no new multiple of 20 was
reached. -/
theorem progress_fires_without_new_multiple :
    progressCounts [Json.str "x"] = [0] ∧ processRecords [Json.str "x"] = [] :=
  ⟨rfl, rfl⟩

lemma progressGo_eq_filter : ∀ (items : List Json) (count : ℕ) (seen : List String),
    progressGo count seen items =
      (emittedCountsGo count seen items).filter fun c => decide (c % 20 = 0) := by
  intro items
  induction items with
  | nil => intro count seen; rfl
  | cons item rest ih =>
    intro count seen
    by_cases ht : item.truthy = false
    · simp only [progressGo, emittedCountsGo, if_pos ht]
      exact ih count seen
    · simp only [progressGo, emittedCountsGo, if_neg ht]
      cases hp : parseRecord item with
      | none =>
        by_cases hc : count % 20 = 0
        · rw [if_pos hc, List.filter_cons_of_pos (by simpa using hc)]
          exact congrArg _ (ih count seen)
        · rw [if_neg hc, List.filter_cons_of_neg (by simpa using hc)]
          exact ih count seen
      | some p =>
        by_cases hmem : p.id ∈ seen
        · simp only [if_pos hmem]
          by_cases hc : count % 20 = 0
          · rw [if_pos hc, List.filter_cons_of_pos (by simpa using hc)]
            exact congrArg _ (ih count seen)
          · rw [if_neg hc, List.filter_cons_of_neg (by simpa using hc)]
            exact ih count seen
        · simp only [if_neg hmem]
          by_cases hc : (count + 1) % 20 = 0
          · rw [if_pos hc, List.filter_cons_of_pos (by simpa using hc)]
            exact congrArg _ (ih (count + 1) (p.id :: seen))
          · rw [if_neg hc, List.filter_cons_of_neg (by simpa using hc)]
            exact ih (count + 1) (p.id :: seen)

/-- Claim C9 as amended: the in-loop progress calls occur after exactly those
records (passing the `!item` guard) whose processing leaves the running
emitted count divisible by 20, carrying that count — i.e. the progress-call
counts are the running-count stream filtered to multiples of 20. The
callback does fire whenever an emission brings the count to a new multiple
of 20, but it also re-fires on every further non-emitting record while the
count remains at a multiple of 20, including at count 0. -/
theorem progressCounts_filter_spec : ∀ items : List Json,
    progressCounts items =
      (emittedCounts items).filter fun c => decide (c % 20 = 0) := by
  intro items
  exact progressGo_eq_filter items 0 []

/-! ## Claim C4: RMS display color -/

/-- Evaluation rule for `roundSqrt`: bracketing `4 * q` between consecutive
squares determines the result. -/
lemma roundSqrt_eval (q : ℚ) (m : ℕ) (h1 : (m : ℚ) * m ≤ 4 * q)
    (h2 : 4 * q < ((m : ℚ) + 1) * ((m : ℚ) + 1)) : roundSqrt q = (m + 1) / 2 := by
  have hq4 : (0 : ℚ) ≤ 4 * q := le_trans (by positivity) h1
  have hfl0 : (0 : ℤ) ≤ ⌊4 * q⌋ := Int.floor_nonneg.mpr hq4
  have h1' : ((m * m : ℕ) : ℤ) ≤ ⌊4 * q⌋ :=
    Int.le_floor.mpr (by push_cast; exact h1)
  have h2' : ⌊4 * q⌋ < (((m + 1) * (m + 1) : ℕ) : ℤ) := by
    have hle : ((⌊4 * q⌋ : ℤ) : ℚ) ≤ 4 * q := Int.floor_le _
    have h : ((⌊4 * q⌋ : ℤ) : ℚ) < (((m + 1) * (m + 1) : ℕ) : ℚ) :=
      lt_of_le_of_lt hle (by push_cast; exact h2)
    exact_mod_cast h
  have hsq : Nat.sqrt (Int.toNat ⌊4 * q⌋) = m := by
    symm
    rw [Nat.eq_sqrt]
    constructor
    · omega
    · omega
  unfold roundSqrt
  rw [hsq]

/-- The executable `roundSqrt` agrees with `Math.round ∘ Math.sqrt`, i.e.
with rounding the real square root to the nearest integer (halves up). -/
lemma roundSqrt_eq_round_sqrt (q : ℚ) (hq : 0 ≤ q) :
    (roundSqrt q : ℤ) = round (Real.sqrt (q : ℝ)) := by
  have hq4 : (0 : ℚ) ≤ 4 * q := by positivity
  have hfl0 : (0 : ℤ) ≤ ⌊4 * q⌋ := Int.floor_nonneg.mpr hq4
  set t : ℕ := Int.toNat ⌊4 * q⌋ with htdef
  set m : ℕ := Nat.sqrt t with hmdef
  have hrs : roundSqrt q = (m + 1) / 2 := rfl
  -- bracket 4q between m^2 and (m+1)^2, over ℚ
  have hcast : ((t : ℕ) : ℚ) = ((⌊4 * q⌋ : ℤ) : ℚ) := by
    rw [htdef]
    exact_mod_cast Int.toNat_of_nonneg hfl0
  have htz : ((t : ℕ) : ℚ) ≤ 4 * q := by
    rw [hcast]
    exact Int.floor_le _
  have htz' : 4 * q < ((t : ℕ) : ℚ) + 1 := by
    rw [hcast]
    exact Int.lt_floor_add_one _
  have hm1 : ((m * m : ℕ) : ℚ) ≤ 4 * q :=
    le_trans (by exact_mod_cast Nat.sqrt_le t) htz
  have hm2 : 4 * q < (((m + 1) * (m + 1) : ℕ) : ℚ) := by
    have hnat : t + 1 ≤ (m + 1) * (m + 1) :=
      Nat.succ_le_of_lt (by simpa [Nat.succ_eq_add_one, hmdef] using Nat.lt_succ_sqrt t)
    have hc : ((t : ℕ) : ℚ) + 1 ≤ (((m + 1) * (m + 1) : ℕ) : ℚ) := by
      exact_mod_cast hnat
    exact lt_of_lt_of_le htz' hc
  clear_value t m
  -- move to ℝ
  have hmr1 : (m : ℝ) * m ≤ 4 * (q : ℝ) := by exact_mod_cast hm1
  have hmr2 : 4 * (q : ℝ) < ((m : ℝ) + 1) * ((m : ℝ) + 1) := by exact_mod_cast hm2
  have hq0r : (0 : ℝ) ≤ (q : ℝ) := by exact_mod_cast hq
  have h4q0 : (0 : ℝ) ≤ 4 * (q : ℝ) := by linarith
  have hs1 : (m : ℝ) ≤ Real.sqrt (4 * (q : ℝ)) :=
    (Real.le_sqrt (by positivity) h4q0).mpr (by rw [pow_two]; exact hmr1)
  have hs2 : Real.sqrt (4 * (q : ℝ)) < (m : ℝ) + 1 :=
    (Real.sqrt_lt' (by positivity)).mpr (by rw [pow_two]; exact hmr2)
  have hsqrt4 : Real.sqrt (4 * (q : ℝ)) = 2 * Real.sqrt (q : ℝ) := by
    rw [show (4 : ℝ) * (q : ℝ) = 2 ^ 2 * (q : ℝ) by norm_num,
      Real.sqrt_mul (by positivity), Real.sqrt_sq (by norm_num)]
  rw [hsqrt4] at hs1 hs2
  rw [round_eq, hrs]
  symm
  rw [Int.floor_eq_iff]
  rcases Nat.even_or_odd m with ⟨k, hk⟩ | ⟨k, hk⟩
  · subst hk
    rw [show ((k + k + 1) / 2 : ℕ) = k by omega]
    push_cast at hs1 hs2 ⊢
    constructor
    · linarith
    · linarith
  · subst hk
    rw [show ((2 * k + 1 + 1) / 2 : ℕ) = k + 1 by omega]
    push_cast at hs1 hs2 ⊢
    constructor
    · linarith
    · linarith

/-- The accumulated squared sums of `displayColor` equal the per-channel sums
of squared `hexToRgb` channels: a member whose hex fails the six-digit decode
contributes nothing to the fold, and its `hexToRgb` channels are 0. -/
lemma displayColor_sums : ∀ (ps : List Product) (acc : ℕ × ℕ × ℕ),
    ps.foldl (fun acc p =>
      match matchHex6 (expandShorthand p.hex.toList) with
      | some (r, g, b) => (acc.1 + r * r, acc.2.1 + g * g, acc.2.2 + b * b)
      | none => acc) acc =
    (acc.1 + (ps.map fun p => (hexToRgb p.hex).r ^ 2).sum,
     acc.2.1 + (ps.map fun p => (hexToRgb p.hex).g ^ 2).sum,
     acc.2.2 + (ps.map fun p => (hexToRgb p.hex).b ^ 2).sum) := by
  intro ps
  induction ps with
  | nil => intro acc; simp
  | cons p rest ih =>
    intro acc
    simp only [List.foldl_cons, List.map_cons, List.sum_cons]
    cases hx : matchHex6 (expandShorthand p.hex.toList) with
    | none =>
      have hrgb : hexToRgb p.hex = ⟨0, 0, 0⟩ := by
        unfold hexToRgb
        rw [hx]
      rw [ih acc, hrgb]
      simp
    | some v =>
      obtain ⟨r, g, b⟩ := v
      have hrgb : hexToRgb p.hex = ⟨r, g, b⟩ := by
        unfold hexToRgb
        rw [hx]
      rw [ih (acc.1 + r * r, acc.2.1 + g * g, acc.2.2 + b * b), hrgb]
      simp only [Prod.mk.injEq]
      refine ⟨by ring, by ring, by ring⟩

/-- The RMS display formula for clusters of at least two members, stated via
the executable `roundSqrt`. -/
lemma displayColor_rms_formula (ps : List Product) (h : 2 ≤ ps.length) :
    displayColor ps =
      "rgb(" ++ toString (roundSqrt
          (((ps.map fun p => (hexToRgb p.hex).r ^ 2).sum : ℚ) / (ps.length : ℚ))) ++ "," ++
        toString (roundSqrt
          (((ps.map fun p => (hexToRgb p.hex).g ^ 2).sum : ℚ) / (ps.length : ℚ))) ++ "," ++
        toString (roundSqrt
          (((ps.map fun p => (hexToRgb p.hex).b ^ 2).sum : ℚ) / (ps.length : ℚ))) ++ ")" := by
  cases ps with
  | nil => simp at h
  | cons p1 rest =>
    cases rest with
    | nil => simp at h
    | cons p2 rest2 =>
      show "rgb(" ++ toString (roundSqrt
          ((((p1 :: p2 :: rest2).foldl (fun acc p =>
            match matchHex6 (expandShorthand p.hex.toList) with
            | some (r, g, b) => (acc.1 + r * r, acc.2.1 + g * g, acc.2.2 + b * b)
            | none => acc) ((0, 0, 0) : ℕ × ℕ × ℕ)).1 : ℚ) /
              (((p1 :: p2 :: rest2).length : ℕ) : ℚ))) ++ "," ++ _ ++ "," ++ _ ++ ")" = _
      rw [displayColor_sums (p1 :: p2 :: rest2) ((0, 0, 0) : ℕ × ℕ × ℕ)]
      simp only [Nat.zero_add]

/-- Member with channels (255, 0, 0). -/
def pRed : Product := ⟨"r", "P", "Red", "Other", "#FF0000", "u", none⟩

/-- Member with channels (0, 255, 0). -/
def pGreen : Product := ⟨"g", "P", "Green", "Other", "#00FF00", "u", none⟩

lemma displayColor_concrete : displayColor [pRed, pGreen] = "rgb(180,180,0)" := by
  have h180 : roundSqrt ((65025 : ℚ) / 2) = 180 := by
    rw [roundSqrt_eval ((65025 : ℚ) / 2) 360 (by norm_num) (by norm_num)]
  have h0 : roundSqrt ((0 : ℚ) / 2) = 0 := by
    rw [roundSqrt_eval ((0 : ℚ) / 2) 0 (by norm_num) (by norm_num)]
  have hform : displayColor [pRed, pGreen] =
      "rgb(" ++ toString (roundSqrt ((65025 : ℚ) / 2)) ++ "," ++
        toString (roundSqrt ((65025 : ℚ) / 2)) ++ "," ++
        toString (roundSqrt ((0 : ℚ) / 2)) ++ ")" := rfl
  rw [hform, h180, h0]
  rfl

/-- Claim C4: a singleton cluster displays its member's own hex; a cluster of
two or more members displays per-channel root-mean-square values — each
channel is `roundSqrt` of the mean of the members' squared channels, where
`roundSqrt` provably equals nearest-integer rounding of the real square root
— and the members (255,0,0) and (0,255,0) mix to (180,180,0), not to the
arithmetic mean (128,128,0). -/
theorem displayColor_rms :
    (∀ p, displayColor [p] = p.hex) ∧
    (∀ ps : List Product, 2 ≤ ps.length → displayColor ps =
      "rgb(" ++ toString (roundSqrt
          (((ps.map fun p => (hexToRgb p.hex).r ^ 2).sum : ℚ) / (ps.length : ℚ))) ++ "," ++
        toString (roundSqrt
          (((ps.map fun p => (hexToRgb p.hex).g ^ 2).sum : ℚ) / (ps.length : ℚ))) ++ "," ++
        toString (roundSqrt
          (((ps.map fun p => (hexToRgb p.hex).b ^ 2).sum : ℚ) / (ps.length : ℚ))) ++ ")") ∧
    (∀ q : ℚ, 0 ≤ q → (roundSqrt q : ℤ) = round (Real.sqrt (q : ℝ))) ∧
    displayColor [pRed, pGreen] = "rgb(180,180,0)" ∧
    displayColor [pRed, pGreen] ≠ "rgb(128,128,0)" :=
  ⟨fun _ => rfl, displayColor_rms_formula, roundSqrt_eq_round_sqrt,
    displayColor_concrete, by rw [displayColor_concrete]; decide⟩

/-- Witness for `displayColor_rms` at the two-member cluster and at a
concrete rational. -/
theorem displayColor_rms_witness :
    displayColor [pRed, pGreen] =
      "rgb(" ++ toString (roundSqrt
          ((([pRed, pGreen].map fun p => (hexToRgb p.hex).r ^ 2).sum : ℚ) /
            (([pRed, pGreen].length : ℕ) : ℚ))) ++ "," ++
        toString (roundSqrt
          ((([pRed, pGreen].map fun p => (hexToRgb p.hex).g ^ 2).sum : ℚ) /
            (([pRed, pGreen].length : ℕ) : ℚ))) ++ "," ++
        toString (roundSqrt
          ((([pRed, pGreen].map fun p => (hexToRgb p.hex).b ^ 2).sum : ℚ) /
            (([pRed, pGreen].length : ℕ) : ℚ))) ++ ")" ∧
    (roundSqrt (4 : ℚ) : ℤ) = round (Real.sqrt ((4 : ℚ) : ℝ)) :=
  ⟨displayColor_rms.2.1 [pRed, pGreen] (by decide),
    displayColor_rms.2.2.1 4 (by decide)⟩

end PolySpectra
